import Mathlib

/-!
Verification of the peer-to-peer content replication node (`server.go`).

The Go code is shallowly embedded: the `FileServer` state (peer registry,
local blob store, encryption key) becomes a Lean structure, and each
operation (`Store`, `Get`, `broadcast`, `OnPeer`, the dispatch `loop` and
its two message handlers) becomes a pure function returning the updated
state together with an explicit trace of observable events (bytes sent to
peers, reads from peer connections, lock acquisitions, sleeps, log lines).
External collaborators that live in the repository but outside the core
file (the crypto stream transform, the gob serialization, the transport
tag bytes) are modelled from the spec, as marked on each definition.
-/

set_option autoImplicit false

namespace CAS

/-- Modelled from the spec: the transport tag byte `TAG_MESSAGE`
(`p2p.IncomingMessage`), announcing that a serialized control envelope
follows.  The concrete value is immaterial; it only has to differ from
`IncomingStream`. -/
def IncomingMessage : Nat := 1

/-- Modelled from the spec: the transport tag byte `TAG_STREAM`
(`p2p.IncomingStream`), announcing that a raw content stream follows. -/
def IncomingStream : Nat := 2

/-- The fixed per-stream overhead added by the encryption transform (the
16-byte IV prefix); `Store` adds the literal `16` to the plaintext size in
the announce message (`server.go:122`). -/
def ENCRYPTION_OVERHEAD : Nat := 16

/-- Little-endian encoding of a natural number into 8 bytes, as produced
by `binary.Write(..., binary.LittleEndian, int64)` for non-negative
values. -/
def natToLE8 (n : Nat) : List Nat :=
  (List.range 8).map fun i => n / 256 ^ i % 256

/-- Read a little-endian byte list back into a natural number. -/
def fromLE8 (l : List Nat) : Nat :=
  l.foldr (fun b acc => b + 256 * acc) 0

/-- Signed interpretation of an 8-byte little-endian block, as done by
`binary.Read(peer, binary.LittleEndian, &fileSize)` with `fileSize :
int64` (`server.go:93-94`). -/
def decodeInt64LE (l : List Nat) : Int :=
  let u := fromLE8 l
  if u < 2 ^ 63 then (u : Int) else (u : Int) - 2 ^ 64

/-- Modelled from the spec: the keystream of the symmetric stream cipher
(CipherStream collaborator, `copyEncrypt`/`copyDecrypt` in the repository
but outside `src/`).  Any concrete byte stream determined by key and IV
serves the model; decryption only relies on XOR being an involution. -/
def keystreamOf (key iv : List Nat) (n : Nat) : List Nat :=
  (List.range n).map fun i => (key.sum + iv.sum + i) % 256

/-- Modelled from the spec: `copyEncrypt(key, src, dst)` writes a 16-byte
IV followed by the XOR-encrypted source bytes, so the ciphertext is 16
bytes (`ENCRYPTION_OVERHEAD`) longer than the plaintext. -/
def copyEncrypt (key iv data : List Nat) : List Nat :=
  iv ++ List.zipWith Nat.xor data (keystreamOf key iv data.length)

/-- Modelled from the spec: the byte transform of
`store.WriteDecrypt(encKey, key, r)` — strip the 16-byte IV prefix and
XOR the remainder against the keystream it determines. -/
def writeDecryptBytes (key cdata : List Nat) : List Nat :=
  List.zipWith Nat.xor (cdata.drop 16)
    (keystreamOf key (cdata.take 16) (cdata.length - 16))

/-- Modelled from the spec: the local BlobStore, keyed by opaque strings.
An association list keeps the model executable; `storeWrite` has Go-map
overwrite semantics (last writer wins). -/
abbrev StoreMap := List (String × List Nat)

/-- Models `store.Has(key)` of the BlobStore collaborator. -/
def storeHas (st : StoreMap) (k : String) : Bool :=
  st.any fun e => e.1 == k

/-- Models `store.Read(key)` of the BlobStore collaborator: the stored bytes, if
present. -/
def storeRead (st : StoreMap) (k : String) : Option (List Nat) :=
  (st.find? fun e => e.1 == k).map fun e => e.2

/-- Models `store.Write(key, r)`: overwrite-or-append under `key`. -/
def storeWrite : StoreMap → String → List Nat → StoreMap
  | [], k, v => [(k, v)]
  | e :: rest, k, v =>
    if e.1 == k then (k, v) :: rest else e :: storeWrite rest k v

/-- A peer connection handle (`p2p.Peer`): its remote address, whether
writes to it succeed (models transport health), and the bytes that will
arrive when the node reads from this connection. -/
structure Peer where
  addr : String
  sendOk : Bool
  inbox : List Nat
deriving DecidableEq

/-- Observable events of an operation, in order: lock discipline on the
peer registry, registry iteration/mutation, per-peer I/O, sleeps, log
lines and transport shutdown. -/
inductive Ev where
  | lockAcq : Ev
  | lockRel : Ev
  | regUpdate (addr : String) : Ev
  | visitPeer (addr : String) : Ev
  | send (addr : String) (bytes : List Nat) : Ev
  | readPeer (addr : String) (n : Nat) : Ev
  | sleep (ms : Nat) : Ev
  | closeStream (addr : String) : Ev
  | logMsg (m : String) : Ev
  | transportClosed : Ev
deriving DecidableEq

/-- The `FileServer` state: encryption key, peer registry (`peers` map,
keyed by remote address), local blob store, and a flag modelling whether
local disk writes succeed (so that `store.Write` errors are expressible). -/
structure FileServer where
  encKey : List Nat
  peers : List Peer
  store : StoreMap
  storeWriteOk : Bool
deriving DecidableEq

/-- The bytes an event trace delivers to the connection of address `a`,
in order. -/
def sentTo (tr : List Ev) (a : String) : List Nat :=
  (tr.filterMap fun e =>
    match e with
    | .send b bs => if b == a then some bs else none
    | _ => none).flatten

/-- The two registered control-message variants (`MessageStoreFile`,
`MessageGetFile`), i.e. the payloads of the `Message` envelope. -/
inductive Payload where
  | MessageStoreFile (key : String) (size : Int) : Payload
  | MessageGetFile (key : String) : Payload
deriving DecidableEq

/-- Modelled from the spec: the serialization layer (gob) for strings —
length-prefixed code points.  Only round-trip exactness and fallibility
on malformed bytes matter to the node. -/
def encodeString (s : String) : List Nat :=
  natToLE8 s.toList.length ++ s.toList.map Char.toNat

/-- Modelled from the spec: `gob.Encode` of the `Message` envelope — a
variant tag followed by the fields. -/
def encodePayload : Payload → List Nat
  | .MessageStoreFile key size =>
      1 :: (encodeString key ++ natToLE8 ((size.emod (2 ^ 64)).toNat))
  | .MessageGetFile key => 2 :: encodeString key

/-- Modelled from the spec: decoding of a length-prefixed string; `none`
on truncated or invalid input. -/
def decodeString (bs : List Nat) : Option (String × List Nat) :=
  if 8 ≤ bs.length then
    let n := fromLE8 (bs.take 8)
    let rest := bs.drop 8
    if n ≤ rest.length && (rest.take n).all (fun b => decide (b < 256)) then
      some (String.mk ((rest.take n).map Char.ofNat), rest.drop n)
    else none
  else none

/-- Modelled from the spec: `gob.Decode` of a `Message` envelope; `none`
models the decode error on malformed or unknown-variant bytes. -/
def decodeMessage : List Nat → Option Payload
  | 1 :: rest =>
    match decodeString rest with
    | some (key, rem) =>
      if rem.length == 8 then some (.MessageStoreFile key (decodeInt64LE rem))
      else none
    | none => none
  | 2 :: rest =>
    match decodeString rest with
    | some (key, rem) =>
      if rem.isEmpty then some (.MessageGetFile key) else none
    | none => none
  | _ => none

/-- Does a byte sequence consist of the stream tag, an 8-byte
little-endian length, and exactly that many following bytes?  (The wire
shape C5 claims for every content stream.) -/
def wellFramedStream : List Nat → Bool
  | [] => false
  | t :: rest =>
    t == IncomingStream && decide (8 ≤ rest.length) &&
      fromLE8 (rest.take 8) == rest.length - 8

/-- The loop of `broadcast` over `s.peers` (`server.go:54-59`): for each peer,
send the message tag byte (error discarded) and then the encoded
envelope; a failing envelope send aborts the whole broadcast with an
error. -/
def broadcastGo (buf : List Nat) : List Peer → List Ev × Option String
  | [] => ([], none)
  | p :: rest =>
    if p.sendOk then
      let r := broadcastGo buf rest
      (Ev.visitPeer p.addr :: Ev.send p.addr [IncomingMessage] ::
         Ev.send p.addr buf :: r.1, r.2)
    else ([Ev.visitPeer p.addr], some "send failed")

/-- Models `broadcast` (`server.go:48-61`): gob-encode the envelope
once, then push it to every registered peer. -/
def FileServer.broadcast (s : FileServer) (msg : Payload) :
    List Ev × Option String :=
  broadcastGo (encodePayload msg) s.peers

/-- Models `io.MultiWriter(peers...).Write(bs)`: sequential write to each peer,
stopping at the first failure (`Bool` is success). -/
def multiWrite (bs : List Nat) : List Peer → List Ev × Bool
  | [] => ([], true)
  | p :: rest =>
    if p.sendOk then
      let r := multiWrite bs rest
      (Ev.send p.addr bs :: r.1, r.2)
    else ([], false)

/-- Models `Store(key, r)` (`server.go:108-144`): tee the source into
a buffer while writing it to the local store (capturing the plaintext
size), broadcast `MessageStoreFile{key, size+16}`, sleep 5ms, snapshot
the registry into a multi-writer, push the stream tag (error discarded)
and then the encrypted content to all peers.  `iv` is the random IV drawn
inside `copyEncrypt`. -/
def FileServer.Store (s : FileServer) (iv : List Nat) (key : String)
    (r : List Nat) : FileServer × List Ev × Option String :=
  if s.storeWriteOk = false then (s, [], some "store write failed")
  else
    let size := r.length
    let s1 : FileServer := { s with store := storeWrite s.store key r }
    let msg := Payload.MessageStoreFile key ((size + ENCRYPTION_OVERHEAD : Nat) : Int)
    let b := s1.broadcast msg
    match b.2 with
    | some e => (s1, b.1, some e)
    | none =>
      let snap := s.peers.map fun p => Ev.visitPeer p.addr
      let tagw := multiWrite [IncomingStream] s.peers
      let cipher := copyEncrypt s.encKey iv r
      let cw := multiWrite cipher s.peers
      let tr := b.1 ++ [Ev.sleep 5] ++ snap ++ tagw.1 ++ cw.1
      if cw.2 then (s1, tr, none) else (s1, tr, some "stream write failed")

/-- The bytes `Get` will pull off one peer connection after the length
header: read an 8-byte little-endian `int64`, then a bounded read of that
many bytes (`io.LimitReader(peer, fileSize)`, `server.go:93-95`). -/
def bodyOf (p : Peer) : List Nat :=
  (p.inbox.drop 8).take (decodeInt64LE (p.inbox.take 8)).toNat

/-- The collection loop of `Get` over the registry (`server.go:90-103`): per
peer, read the length header, write-decrypt the bounded stream into the
store under `key`, and signal stream-consumed. -/
def getCollect (encKey : List Nat) (key : String) (writeOk : Bool) :
    List Peer → StoreMap → StoreMap × List Ev × Option String
  | [], st => (st, [], none)
  | p :: rest, st =>
    if writeOk then
      let st1 := storeWrite st key (writeDecryptBytes encKey (bodyOf p))
      let r := getCollect encKey key writeOk rest st1
      (r.1, Ev.visitPeer p.addr :: Ev.readPeer p.addr (8 + (bodyOf p).length) ::
        Ev.closeStream p.addr :: r.2.1, r.2.2)
    else
      (st, [Ev.visitPeer p.addr, Ev.readPeer p.addr (8 + (bodyOf p).length)],
       some "store write failed")

/-- Models `Get(key)` (`server.go:72-106`): serve from the local
store when present; otherwise broadcast `MessageGetFile{key}`, sleep
500ms, collect one stream from every registered peer into the store, and
finally re-read the local store under `key`. -/
def FileServer.Get (s : FileServer) (key : String) :
    FileServer × List Ev × Except String (List Nat) :=
  if storeHas s.store key then
    match storeRead s.store key with
    | some data => (s, [], .ok data)
    | none => (s, [], .error "read failed")
  else
    let b := s.broadcast (Payload.MessageGetFile key)
    match b.2 with
    | some e => (s, b.1, .error e)
    | none =>
      let c := getCollect s.encKey key s.storeWriteOk s.peers s.store
      let s1 : FileServer := { s with store := c.1 }
      let tr := b.1 ++ [Ev.sleep 500] ++ c.2.1
      match c.2.2 with
      | some e => (s1, tr, .error e)
      | none =>
        match storeRead c.1 key with
        | some data => (s1, tr, .ok data)
        | none => (s1, tr, .error "read failed")

/-- Lookup in the registry by remote address (`s.peers[from]`). -/
def findPeer (ps : List Peer) (a : String) : Option Peer :=
  ps.find? fun p => p.addr == a

/-- Models `handleMessageGetFile` (`server.go:191-222`): error when the key is
absent locally (nothing is written to the requester); otherwise send the
stream tag, the size as an 8-byte little-endian `int64`, and the raw
stored bytes to the requesting peer. -/
def FileServer.handleMessageGetFile (s : FileServer) (fromAddr key : String) :
    FileServer × List Ev × Option String :=
  if storeHas s.store key = false then
    (s, [], some "need to serve file but it does not exist on disk")
  else
    match storeRead s.store key with
    | none => (s, [], some "read failed")
    | some data =>
      match findPeer s.peers fromAddr with
      | none => (s, [], some "peer not in map")
      | some p =>
        if p.sendOk then
          (s, [Ev.send fromAddr [IncomingStream],
               Ev.send fromAddr (natToLE8 data.length),
               Ev.send fromAddr data], none)
        else (s, [], some "send failed")

/-- Models `handleMessageStoreFile` (`server.go:224-237`): find the announcing
peer, read exactly `size` bytes from its connection into the store under
`key` with a plain `store.Write` (the bytes are stored as received, still
encrypted), and signal stream-consumed. -/
def FileServer.handleMessageStoreFile (s : FileServer) (fromAddr key : String)
    (size : Int) : FileServer × List Ev × Option String :=
  match findPeer s.peers fromAddr with
  | none => (s, [], some "peer could not be found in peerlist")
  | some p =>
    if s.storeWriteOk then
      let body := p.inbox.take size.toNat
      ({ s with store := storeWrite s.store key body },
       [Ev.readPeer fromAddr body.length, Ev.closeStream fromAddr], none)
    else (s, [], some "store write failed")

/-- Models `handleMessage` (`server.go:181-189`): dispatch on the payload
variant; a `none` payload (the zero-value `Message` left by a failed
decode) matches no case and is a no-op. -/
def FileServer.handleMessage (s : FileServer) (fromAddr : String)
    (msg : Option Payload) : FileServer × List Ev × Option String :=
  match msg with
  | some (.MessageStoreFile key size) => s.handleMessageStoreFile fromAddr key size
  | some (.MessageGetFile key) => s.handleMessageGetFile fromAddr key
  | none => (s, [], none)

/-- An input to the dispatch loop: an inbound RPC off the transport
channel, or the quit signal (`close(s.quitCh)`). -/
inductive LoopInput where
  | rpc (fromAddr : String) (payload : List Nat) : LoopInput
  | quit : LoopInput
deriving DecidableEq

/-- The dispatch loop (`server.go:159-179`) over a finite schedule of
inputs.  A decode error is logged and the zero-value message dispatches
to no handler; a handler error is logged and the loop continues; only
`quit` ends the loop, whereupon the deferred `Transport.Close()` runs.
The `Bool` records whether the loop terminated. -/
def FileServer.loop (s : FileServer) : List LoopInput → FileServer × List Ev × Bool
  | [] => (s, [], false)
  | .quit :: _ => (s, [Ev.transportClosed], true)
  | .rpc fromAddr pl :: rest =>
    match decodeMessage pl with
    | none =>
      let r := FileServer.loop s rest
      (r.1, Ev.logMsg "decoding error" :: r.2.1, r.2.2)
    | some m =>
      let h := s.handleMessage fromAddr (some m)
      let r := FileServer.loop h.1 rest
      match h.2.2 with
      | some _ =>
        (r.1, h.2.1 ++ Ev.logMsg "handle message error" :: r.2.1, r.2.2)
      | none => (r.1, h.2.1 ++ r.2.1, r.2.2)

/-- Registry insertion with Go-map semantics: replace the entry with the
same address, or append. -/
def peersUpd : List Peer → Peer → List Peer
  | [], p => [p]
  | q :: rest, p => if q.addr == p.addr then p :: rest else q :: peersUpd rest p

/-- Models `OnPeer` (`server.go:150-157`): register the peer under its remote
address while holding `peerLock` (the log line runs before the deferred
unlock). -/
def FileServer.OnPeer (s : FileServer) (p : Peer) : FileServer × List Ev :=
  ({ s with peers := peersUpd s.peers p },
   [Ev.lockAcq, Ev.regUpdate p.addr, Ev.logMsg "connected with remote",
    Ev.lockRel])

/-- The event block a successful `broadcast` produces for each peer in
registry order: visit the peer, send the tag byte `TAG_MESSAGE`, send the
encoded envelope. -/
def bcastEvs (buf : List Nat) (ps : List Peer) : List Ev :=
  (ps.map fun p =>
    [Ev.visitPeer p.addr, Ev.send p.addr [IncomingMessage],
     Ev.send p.addr buf]).flatten

/-- The event block a successful multi-writer write produces: one send of
the same bytes per peer, in registry order. -/
def mwEvs (bs : List Nat) (ps : List Peer) : List Ev :=
  (ps.map fun p => [Ev.send p.addr bs]).flatten

/-- The event block the successful collection loop of `Get` produces per peer:
visit, read the 8-byte header plus the bounded body, signal
stream-consumed. -/
def collectEvs (ps : List Peer) : List Ev :=
  (ps.map fun p =>
    [Ev.visitPeer p.addr, Ev.readPeer p.addr (8 + (bodyOf p).length),
     Ev.closeStream p.addr]).flatten

theorem sentTo_nil (a : String) : sentTo [] a = [] := rfl

theorem sentTo_send (b : String) (bs : List Nat) (tr : List Ev) (a : String) :
    sentTo (Ev.send b bs :: tr) a = (if b = a then bs else []) ++ sentTo tr a := by
  by_cases h : b = a <;> simp [sentTo, h]

theorem sentTo_visit (b : String) (tr : List Ev) (a : String) :
    sentTo (Ev.visitPeer b :: tr) a = sentTo tr a := by
  simp [sentTo]

theorem sentTo_read (b : String) (n : Nat) (tr : List Ev) (a : String) :
    sentTo (Ev.readPeer b n :: tr) a = sentTo tr a := by
  simp [sentTo]

theorem sentTo_close (b : String) (tr : List Ev) (a : String) :
    sentTo (Ev.closeStream b :: tr) a = sentTo tr a := by
  simp [sentTo]

theorem sentTo_sleep (ms : Nat) (tr : List Ev) (a : String) :
    sentTo (Ev.sleep ms :: tr) a = sentTo tr a := by
  simp [sentTo]

theorem sentTo_append (l1 l2 : List Ev) (a : String) :
    sentTo (l1 ++ l2) a = sentTo l1 a ++ sentTo l2 a := by
  simp [sentTo]

theorem sentTo_visits (a : String) :
    ∀ ps : List Peer, sentTo (ps.map fun p => Ev.visitPeer p.addr) a = []
  | [] => rfl
  | p :: ps => by
    rw [List.map_cons, sentTo_visit]
    exact sentTo_visits a ps

/-- If every per-peer block delivers `B` to `a` exactly when the peer has
address `a`, then the flattened blocks deliver one copy of `B` per
occurrence of `a` among the registry addresses. -/
theorem sentTo_blocks (B : List Nat) (f : Peer → List Ev) (a : String)
    (hf : ∀ p : Peer, sentTo (f p) a = if p.addr = a then B else []) :
    ∀ ps : List Peer,
      sentTo (ps.map f).flatten a =
        (List.replicate ((ps.map Peer.addr).count a) B).flatten
  | [] => by simp [sentTo]
  | p :: ps => by
    rw [List.map_cons, List.flatten_cons, sentTo_append, hf p,
      sentTo_blocks B f a hf ps]
    by_cases h : p.addr = a
    · simp [h, List.count_cons, List.replicate_succ]
    · have : ¬a = p.addr := fun hc => h hc.symm
      simp [h, List.count_cons, this]

theorem broadcastGo_ok (buf : List Nat) :
    ∀ ps : List Peer, (∀ p ∈ ps, p.sendOk = true) →
      broadcastGo buf ps = (bcastEvs buf ps, none)
  | [], _ => by simp [broadcastGo, bcastEvs]
  | p :: ps, h => by
    have hp : p.sendOk = true := h p (by simp)
    have ih := broadcastGo_ok buf ps (fun q hq => h q (by simp [hq]))
    simp [broadcastGo, hp, bcastEvs, ih]

theorem broadcastGo_fails (buf : List Nat) :
    ∀ ps : List Peer, (∃ p ∈ ps, p.sendOk = false) →
      (broadcastGo buf ps).2.isSome = true
  | [], h => by simp at h
  | p :: ps, h => by
    by_cases hp : p.sendOk = true
    · obtain ⟨q, hq, hqf⟩ := h
      rcases List.mem_cons.mp hq with rfl | hq2
      · rw [hp] at hqf; cases hqf
      · have ih := broadcastGo_fails buf ps ⟨q, hq2, hqf⟩
        simpa [broadcastGo, hp] using ih
    · simp [broadcastGo, hp]

theorem multiWrite_ok (bs : List Nat) :
    ∀ ps : List Peer, (∀ p ∈ ps, p.sendOk = true) →
      multiWrite bs ps = (mwEvs bs ps, true)
  | [], _ => by simp [multiWrite, mwEvs]
  | p :: ps, h => by
    have hp : p.sendOk = true := h p (by simp)
    have ih := multiWrite_ok bs ps (fun q hq => h q (by simp [hq]))
    simp [multiWrite, hp, mwEvs, ih]

theorem storeRead_storeWrite_self :
    ∀ (st : StoreMap) (k : String) (v : List Nat),
      storeRead (storeWrite st k v) k = some v
  | [], k, v => by simp [storeWrite, storeRead]
  | e :: st, k, v => by
    by_cases h : e.1 == k
    · simp [storeWrite, h, storeRead]
    · have ih := storeRead_storeWrite_self st k v
      simp only [storeWrite, h, if_false, Bool.false_eq_true]
      simpa [storeRead, List.find?_cons, h] using ih

theorem storeRead_some_storeHas (st : StoreMap) (k : String) (v : List Nat)
    (h : storeRead st k = some v) : storeHas st k = true := by
  unfold storeRead at h
  unfold storeHas
  obtain ⟨e, he, rfl⟩ := Option.map_eq_some'.mp h
  have hmem := List.mem_of_find?_eq_some he
  have hpred := List.find?_some he
  exact List.any_eq_true.mpr ⟨e, hmem, hpred⟩

theorem storeHas_storeWrite_self (st : StoreMap) (k : String) (v : List Nat) :
    storeHas (storeWrite st k v) k = true :=
  storeRead_some_storeHas _ _ _ (storeRead_storeWrite_self st k v)

theorem length_natToLE8 (n : Nat) : (natToLE8 n).length = 8 := by
  simp [natToLE8]

theorem fromLE8_digits :
    ∀ (k n : Nat),
      fromLE8 ((List.range k).map fun i => n / 256 ^ i % 256) = n % 256 ^ k := by
  intro k
  induction k with
  | zero => intro n; simp [fromLE8, Nat.mod_one]
  | succ k ih =>
    intro n
    rw [List.range_succ_eq_map, List.map_cons, List.map_map]
    have hmap :
        ((List.range k).map ((fun i => n / 256 ^ i % 256) ∘ Nat.succ)) =
          (List.range k).map fun i => (n / 256) / 256 ^ i % 256 := by
      apply List.map_congr_left
      intro i _
      simp only [Function.comp_apply]
      rw [Nat.div_div_eq_div_mul, ← pow_succ']
    rw [hmap]
    have hcons :
        fromLE8 (n / 256 ^ 0 % 256 :: ((List.range k).map fun i => (n / 256) / 256 ^ i % 256)) =
          n % 256 + 256 * fromLE8 ((List.range k).map fun i => (n / 256) / 256 ^ i % 256) := by
      simp [fromLE8]
    rw [hcons, ih (n / 256), pow_succ', Nat.mod_mul]

theorem fromLE8_natToLE8 (n : Nat) : fromLE8 (natToLE8 n) = n % 2 ^ 64 := by
  have h := fromLE8_digits 8 n
  have : (256 : Nat) ^ 8 = 2 ^ 64 := by norm_num
  rw [natToLE8]
  rw [h, this]

theorem decodeInt64LE_natToLE8 (n : Nat) (h : n < 2 ^ 63) :
    decodeInt64LE (natToLE8 n) = (n : Int) := by
  have h64 : n < 2 ^ 64 := lt_trans h (by norm_num)
  simp only [decodeInt64LE]
  rw [fromLE8_natToLE8, Nat.mod_eq_of_lt h64, if_pos h]

theorem zipWith_xor_cancel :
    ∀ (d ks : List Nat), d.length ≤ ks.length →
      List.zipWith Nat.xor (List.zipWith Nat.xor d ks) ks = d
  | [], _, _ => by simp
  | a :: d, [], h => by simp at h
  | a :: d, k :: ks, h => by
    have ih := zipWith_xor_cancel d ks (by simpa using h)
    have hx : Nat.xor (Nat.xor a k) k = a := Nat.xor_cancel_right k a
    simp [List.zipWith, ih, hx]

theorem length_keystreamOf (key iv : List Nat) (n : Nat) :
    (keystreamOf key iv n).length = n := by
  simp [keystreamOf]

theorem length_copyEncrypt (key iv d : List Nat) (h : iv.length = 16) :
    (copyEncrypt key iv d).length = d.length + ENCRYPTION_OVERHEAD := by
  simp [copyEncrypt, h, length_keystreamOf, ENCRYPTION_OVERHEAD]
  omega

theorem writeDecrypt_copyEncrypt (key iv d : List Nat) (h : iv.length = 16) :
    writeDecryptBytes key (copyEncrypt key iv d) = d := by
  unfold writeDecryptBytes copyEncrypt
  have htake : (iv ++ List.zipWith Nat.xor d (keystreamOf key iv d.length)).take 16 = iv := by
    rw [← h, List.take_left]
  have hdrop : (iv ++ List.zipWith Nat.xor d (keystreamOf key iv d.length)).drop 16 =
      List.zipWith Nat.xor d (keystreamOf key iv d.length) := by
    rw [← h, List.drop_left]
  have hlen : (iv ++ List.zipWith Nat.xor d (keystreamOf key iv d.length)).length - 16 =
      d.length := by
    simp [h, length_keystreamOf]
  rw [htake, hdrop, hlen]
  exact zipWith_xor_cancel d _ (by rw [length_keystreamOf])

theorem bodyOf_eq (p : Peer) (m : Nat) (body rest : List Nat)
    (hm : m < 2 ^ 63) (hb : body.length = m)
    (hin : p.inbox = natToLE8 m ++ (body ++ rest)) : bodyOf p = body := by
  unfold bodyOf
  rw [hin]
  have htake : (natToLE8 m ++ (body ++ rest)).take 8 = natToLE8 m := by
    rw [← length_natToLE8 m, List.take_left]
  have hdrop : (natToLE8 m ++ (body ++ rest)).drop 8 = body ++ rest := by
    rw [← length_natToLE8 m, List.drop_left]
  rw [htake, hdrop, decodeInt64LE_natToLE8 m hm]
  rw [Int.toNat_ofNat, ← hb, List.take_left]

theorem getCollect_ok (ek : List Nat) (key : String) :
    ∀ (ps : List Peer) (st : StoreMap),
      getCollect ek key true ps st =
        (ps.foldl (fun acc p => storeWrite acc key (writeDecryptBytes ek (bodyOf p))) st,
         collectEvs ps, none)
  | [], st => by simp [getCollect, collectEvs]
  | p :: ps, st => by
    have ih := getCollect_ok ek key ps
      (storeWrite st key (writeDecryptBytes ek (bodyOf p)))
    simp [getCollect, collectEvs, ih]

theorem storeRead_foldl_storeWrite (key : String) (f : Peer → List Nat) :
    ∀ (ps : List Peer) (st : StoreMap), ps ≠ [] →
      storeRead (ps.foldl (fun acc p => storeWrite acc key (f p)) st) key =
        ps.getLast?.map f
  | [], _, h => absurd rfl h
  | [p], st, _ => by simp [storeRead_storeWrite_self]
  | p :: q :: ps, st, _ => by
    rw [List.foldl_cons]
    have ih := storeRead_foldl_storeWrite key f (q :: ps)
      (storeWrite st key (f p)) (by simp)
    simpa [List.getLast?_cons_cons] using ih

theorem handleMessageStoreFile_peers (s : FileServer) (fromAddr key : String)
    (size : Int) : (s.handleMessageStoreFile fromAddr key size).1.peers = s.peers := by
  unfold FileServer.handleMessageStoreFile
  split
  · rfl
  · split <;> rfl

theorem handleMessageGetFile_peers (s : FileServer) (fromAddr key : String) :
    (s.handleMessageGetFile fromAddr key).1.peers = s.peers := by
  unfold FileServer.handleMessageGetFile
  split
  · rfl
  · split
    · rfl
    · split
      · rfl
      · split <;> rfl

theorem handleMessage_peers (s : FileServer) (fromAddr : String)
    (msg : Option Payload) : (s.handleMessage fromAddr msg).1.peers = s.peers := by
  rcases msg with _ | p
  · rfl
  · cases p with
    | MessageStoreFile key size => exact handleMessageStoreFile_peers s fromAddr key size
    | MessageGetFile key => exact handleMessageGetFile_peers s fromAddr key

theorem Store_peers (s : FileServer) (iv : List Nat) (key : String) (r : List Nat) :
    (s.Store iv key r).1.peers = s.peers := by
  simp only [FileServer.Store]
  split
  · rfl
  · split
    · rfl
    · split <;> rfl

theorem Get_peers (s : FileServer) (key : String) :
    (s.Get key).1.peers = s.peers := by
  simp only [FileServer.Get]
  split
  · split <;> rfl
  · split
    · rfl
    · split
      · rfl
      · split <;> rfl

theorem loop_peers :
    ∀ (ins : List LoopInput) (s : FileServer), (s.loop ins).1.peers = s.peers
  | [], _ => rfl
  | .quit :: _, _ => rfl
  | .rpc fromAddr pl :: rest, s => by
    unfold FileServer.loop
    cases hd : decodeMessage pl with
    | none => simpa using loop_peers rest s
    | some m =>
      have h1 := handleMessage_peers s fromAddr (some m)
      have h2 := loop_peers rest (s.handleMessage fromAddr (some m)).1
      cases he : (s.handleMessage fromAddr (some m)).2.2 with
      | some e => simp only [he]; rw [h2, h1]
      | none => simp only [he]; rw [h2, h1]

theorem loop_terminates_iff :
    ∀ (ins : List LoopInput) (s : FileServer),
      ((s.loop ins).2.2 = true ↔ LoopInput.quit ∈ ins)
  | [], s => by simp [FileServer.loop]
  | .quit :: rest, s => by simp [FileServer.loop]
  | .rpc fromAddr pl :: rest, s => by
    unfold FileServer.loop
    cases hd : decodeMessage pl with
    | none => simp [loop_terminates_iff rest s]
    | some m =>
      cases he : (s.handleMessage fromAddr (some m)).2.2 with
      | some e => simp [he, loop_terminates_iff rest _]
      | none => simp [he, loop_terminates_iff rest _]

theorem handleMessageStoreFile_no_transportClosed (s : FileServer)
    (fromAddr key : String) (size : Int) :
    Ev.transportClosed ∉ (s.handleMessageStoreFile fromAddr key size).2.1 := by
  unfold FileServer.handleMessageStoreFile
  split
  · simp
  · split <;> simp

theorem handleMessageGetFile_no_transportClosed (s : FileServer)
    (fromAddr key : String) :
    Ev.transportClosed ∉ (s.handleMessageGetFile fromAddr key).2.1 := by
  unfold FileServer.handleMessageGetFile
  split
  · simp
  · split
    · simp
    · split
      · simp
      · split <;> simp

theorem handleMessage_no_transportClosed (s : FileServer) (fromAddr : String)
    (msg : Option Payload) :
    Ev.transportClosed ∉ (s.handleMessage fromAddr msg).2.1 := by
  rcases msg with _ | p
  · simp [FileServer.handleMessage]
  · cases p with
    | MessageStoreFile key size =>
      exact handleMessageStoreFile_no_transportClosed s fromAddr key size
    | MessageGetFile key =>
      exact handleMessageGetFile_no_transportClosed s fromAddr key

theorem loop_transportClosed_iff :
    ∀ (ins : List LoopInput) (s : FileServer),
      (Ev.transportClosed ∈ (s.loop ins).2.1 ↔ LoopInput.quit ∈ ins)
  | [], s => by simp [FileServer.loop]
  | .quit :: rest, s => by simp [FileServer.loop]
  | .rpc fromAddr pl :: rest, s => by
    unfold FileServer.loop
    cases hd : decodeMessage pl with
    | none => simp [loop_transportClosed_iff rest s]
    | some m =>
      have hno := handleMessage_no_transportClosed s fromAddr (some m)
      cases he : (s.handleMessage fromAddr (some m)).2.2 with
      | some e => simp [he, loop_transportClosed_iff rest _, hno]
      | none => simp [he, loop_transportClosed_iff rest _, hno]

theorem peersUpd_map_addr :
    ∀ (ps : List Peer) (p : Peer),
      (peersUpd ps p).map Peer.addr =
        if p.addr ∈ ps.map Peer.addr then ps.map Peer.addr
        else ps.map Peer.addr ++ [p.addr]
  | [], p => by simp [peersUpd]
  | q :: ps, p => by
    by_cases h : q.addr = p.addr
    · simp [peersUpd, beq_iff_eq, h]
    · have ih := peersUpd_map_addr ps p
      by_cases hm : p.addr ∈ ps.map Peer.addr
      · simp [peersUpd, beq_iff_eq, h, hm, ih, Ne.symm h]
      · simp [peersUpd, beq_iff_eq, h, hm, ih, Ne.symm h]

theorem peersUpd_nodup (ps : List Peer) (p : Peer)
    (h : (ps.map Peer.addr).Nodup) :
    ((peersUpd ps p).map Peer.addr).Nodup := by
  rw [peersUpd_map_addr]
  split
  · exact h
  · rename_i hmem
    simp [List.nodup_append, h, hmem]

theorem peersUpd_superset (ps : List Peer) (p : Peer) (a : String)
    (h : a ∈ ps.map Peer.addr) : a ∈ (peersUpd ps p).map Peer.addr := by
  rw [peersUpd_map_addr]
  split
  · exact h
  · exact List.mem_append_left _ h

/-- A fixed 16-byte IV used by the concrete witnesses. -/
def ivZ : List Nat := List.replicate 16 0

/-- A healthy, quiet peer used by the concrete witnesses. -/
def peer1 : Peer := { addr := "p1", sendOk := true, inbox := [] }

/-- A one-peer server used by the concrete witnesses. -/
def srv1 : FileServer :=
  { encKey := [7], peers := [peer1], store := [], storeWriteOk := true }

/-- C2: for every key present in the local BlobStore, `Get(key)` returns
the locally stored content with no network I/O (empty event trace, no
`GetRequest` broadcast, no peer reads); and after `Store(k, data)` with no
peers registered, `Get(k)` returns `data` unchanged from local storage. -/
theorem C2_get_local_no_network (s : FileServer) (iv : List Nat) (key : String)
    (r data : List Nat) :
    (storeRead s.store key = some data → s.Get key = (s, [], Except.ok data)) ∧
    (s.peers = [] → s.storeWriteOk = true →
      (s.Store iv key r).2.2 = none ∧
      (s.Store iv key r).2.1 = [Ev.sleep 5] ∧
      (s.Store iv key r).1.Get key =
        ((s.Store iv key r).1, [], Except.ok r)) := by
  constructor
  · intro h
    have hhas := storeRead_some_storeHas s.store key data h
    simp [FileServer.Get, hhas, h]
  · intro hp hw
    have hs : s.Store iv key r =
        ({ s with store := storeWrite s.store key r }, [Ev.sleep 5], none) := by
      simp [FileServer.Store, hw, FileServer.broadcast, hp, broadcastGo, multiWrite]
    refine ⟨by rw [hs], by rw [hs], ?_⟩
    rw [hs]
    have hread := storeRead_storeWrite_self s.store key r
    have hhas := storeHas_storeWrite_self s.store key r
    simp [FileServer.Get, hhas, hread]

/-- Witness for C2 at a concrete server: store `[1, 2]` under `"k"` with
no peers, then `Get "k"` returns `[1, 2]` from local storage with an
empty event trace. -/
theorem C2_witness :
    (({ encKey := [7], peers := [], store := [], storeWriteOk := true } : FileServer).Store
        ivZ "k" [1, 2]).1.Get "k" =
      ((({ encKey := [7], peers := [], store := [], storeWriteOk := true } : FileServer).Store
        ivZ "k" [1, 2]).1, [], Except.ok [1, 2]) :=
  ((C2_get_local_no_network
      { encKey := [7], peers := [], store := [], storeWriteOk := true }
      ivZ "k" [1, 2] [1, 2]).2 rfl rfl).2.2

/-- C6: `Store` surfaces errors from the local write and from the
broadcast to the caller; a single failing peer send makes the whole
`Store` call return an error. -/
theorem C6_store_surfaces_errors (s : FileServer) (iv : List Nat) (key : String)
    (r : List Nat) :
    (s.storeWriteOk = false → (s.Store iv key r).2.2.isSome = true) ∧
    ((∃ p ∈ s.peers, p.sendOk = false) → (s.Store iv key r).2.2.isSome = true) := by
  constructor
  · intro hw
    simp [FileServer.Store, hw]
  · intro hex
    by_cases hw : s.storeWriteOk = false
    · simp [FileServer.Store, hw]
    · have hw' : s.storeWriteOk = true := by
        revert hw; cases s.storeWriteOk <;> simp
      have hb := broadcastGo_fails
        (encodePayload (.MessageStoreFile key ((r.length + ENCRYPTION_OVERHEAD : Nat) : Int)))
        s.peers hex
      obtain ⟨e, he⟩ := Option.isSome_iff_exists.mp hb
      push_cast at he
      simp [FileServer.Store, hw', FileServer.broadcast, he]

/-- Witness for C6: a concrete one-peer server whose peer rejects sends
makes `Store` return an error. -/
theorem C6_witness :
    (({ encKey := [7],
        peers := [{ addr := "p1", sendOk := false, inbox := [] }],
        store := [], storeWriteOk := true } : FileServer).Store
          ivZ "k" [1, 2]).2.2.isSome = true :=
  (C6_store_surfaces_errors
      { encKey := [7],
        peers := [{ addr := "p1", sendOk := false, inbox := [] }],
        store := [], storeWriteOk := true } ivZ "k" [1, 2]).2
    ⟨{ addr := "p1", sendOk := false, inbox := [] }, by simp, rfl⟩

/-- C9 (code gap): at a concrete one-peer server, both the `Store`
fan-out and `broadcast` iterate the peer registry (they emit
`visitPeer`) without ever acquiring or releasing the registry lock —
the iteration is neither under the lock nor over a snapshot taken under
it, so an `OnPeer` mutation can interleave with it. -/
theorem C9_fanout_iterates_registry_without_lock :
    (Ev.visitPeer "p1" ∈ (srv1.Store ivZ "k" [1, 2, 3]).2.1 ∧
     Ev.lockAcq ∉ (srv1.Store ivZ "k" [1, 2, 3]).2.1 ∧
     Ev.lockRel ∉ (srv1.Store ivZ "k" [1, 2, 3]).2.1) ∧
    (Ev.visitPeer "p1" ∈ (srv1.broadcast (Payload.MessageGetFile "k")).1 ∧
     Ev.lockAcq ∉ (srv1.broadcast (Payload.MessageGetFile "k")).1) := by
  decide

/-- C10: on a `GetRequest` for a key the local store lacks, the handler
writes nothing to the requesting peer (empty trace — no tag byte, no
length, no sentinel) and returns an error; the dispatch loop merely logs
that error and continues with unchanged state. -/
theorem C10_getrequest_absent_key_silent (s : FileServer) (fromAddr key : String)
    (pl : List Nat) (rest : List LoopInput)
    (hmiss : storeHas s.store key = false) :
    s.handleMessageGetFile fromAddr key =
      (s, [], some "need to serve file but it does not exist on disk") ∧
    (decodeMessage pl = some (Payload.MessageGetFile key) →
      s.loop (.rpc fromAddr pl :: rest) =
        ((s.loop rest).1, Ev.logMsg "handle message error" :: (s.loop rest).2.1,
         (s.loop rest).2.2)) := by
  constructor
  · simp [FileServer.handleMessageGetFile, hmiss]
  · intro hd
    have hh : s.handleMessage fromAddr (some (.MessageGetFile key)) =
        (s, [], some "need to serve file but it does not exist on disk") := by
      simp [FileServer.handleMessage, FileServer.handleMessageGetFile, hmiss]
    simp [FileServer.loop, hd, hh]

/-- Witness for C10 at a concrete server with an empty store. -/
theorem C10_witness :
    srv1.handleMessageGetFile "p1" "k" =
      (srv1, [], some "need to serve file but it does not exist on disk") :=
  (C10_getrequest_absent_key_silent srv1 "p1" "k" [] [] rfl).1

/-- C7: in the dispatch loop, a decode failure on an inbound unit is
logged and the unit is dropped — the server state evolves exactly as if
the unit had not arrived, with no handler effect; a handler error is
logged and the loop continues; the loop terminates exactly on the quit
signal, at which point the transport is closed. -/
theorem C7_dispatch_loop_error_isolation (s : FileServer) (fromAddr : String)
    (pl : List Nat) (m : Payload) (e : String) (ins rest : List LoopInput) :
    (decodeMessage pl = none →
      s.loop (.rpc fromAddr pl :: rest) =
        ((s.loop rest).1, Ev.logMsg "decoding error" :: (s.loop rest).2.1,
         (s.loop rest).2.2)) ∧
    (decodeMessage pl = some m →
      (s.handleMessage fromAddr (some m)).2.2 = some e →
      s.loop (.rpc fromAddr pl :: rest) =
        (((s.handleMessage fromAddr (some m)).1.loop rest).1,
         (s.handleMessage fromAddr (some m)).2.1 ++
           Ev.logMsg "handle message error" ::
             ((s.handleMessage fromAddr (some m)).1.loop rest).2.1,
         ((s.handleMessage fromAddr (some m)).1.loop rest).2.2)) ∧
    ((s.loop ins).2.2 = true ↔ LoopInput.quit ∈ ins) ∧
    (Ev.transportClosed ∈ (s.loop ins).2.1 ↔ LoopInput.quit ∈ ins) := by
  refine ⟨?_, ?_, loop_terminates_iff ins s, loop_transportClosed_iff ins s⟩
  · intro hd
    simp [FileServer.loop, hd]
  · intro hd he
    simp [FileServer.loop, hd, he]

/-- Witness for C7: a malformed unit `[9, 9]` is dropped with only a log
line, and a schedule ending in `quit` terminates the loop. -/
theorem C7_witness :
    (srv1.loop [LoopInput.rpc "p1" [9, 9]] =
      ((srv1.loop []).1, Ev.logMsg "decoding error" :: (srv1.loop []).2.1,
       (srv1.loop []).2.2)) ∧
    (srv1.loop [LoopInput.rpc "p1" [9, 9], LoopInput.quit]).2.2 = true :=
  ⟨(C7_dispatch_loop_error_isolation srv1 "p1" [9, 9]
      (Payload.MessageGetFile "k") "e" [] []).1 (by decide),
   (C7_dispatch_loop_error_isolation srv1 "p1" [9, 9]
      (Payload.MessageGetFile "k") "e"
      [LoopInput.rpc "p1" [9, 9], LoopInput.quit] []).2.2.1.mpr (by decide)⟩

/-- C8: the registry maps each remote address to at most one entry
(address-list nodup is preserved by registration); `OnPeer` is the only
operation that changes the registry, and its update happens between
lock-acquire and lock-release; `Store`, `Get`, both handlers, dispatch
and the loop leave the registry untouched; and registration never
removes an address, so the registered address set never shrinks. -/
theorem C8_registry_invariants (s : FileServer) (p : Peer) (iv : List Nat)
    (key fromAddr : String) (r : List Nat) (size : Int) (msg : Option Payload)
    (ins : List LoopInput) :
    ((s.OnPeer p).1.peers = peersUpd s.peers p) ∧
    ((s.peers.map Peer.addr).Nodup →
      ((s.OnPeer p).1.peers.map Peer.addr).Nodup) ∧
    (∀ a ∈ s.peers.map Peer.addr, a ∈ (s.OnPeer p).1.peers.map Peer.addr) ∧
    ((s.OnPeer p).2 = [Ev.lockAcq, Ev.regUpdate p.addr,
       Ev.logMsg "connected with remote", Ev.lockRel]) ∧
    ((s.Store iv key r).1.peers = s.peers) ∧
    ((s.Get key).1.peers = s.peers) ∧
    ((s.handleMessageStoreFile fromAddr key size).1.peers = s.peers) ∧
    ((s.handleMessageGetFile fromAddr key).1.peers = s.peers) ∧
    ((s.handleMessage fromAddr msg).1.peers = s.peers) ∧
    ((s.loop ins).1.peers = s.peers) :=
  ⟨rfl, peersUpd_nodup s.peers p,
   fun a ha => peersUpd_superset s.peers p a ha, rfl,
   Store_peers s iv key r, Get_peers s key,
   handleMessageStoreFile_peers s fromAddr key size,
   handleMessageGetFile_peers s fromAddr key,
   handleMessage_peers s fromAddr msg, loop_peers ins s⟩

/-- Witness for C8: registering a second distinct address keeps the
address list duplicate-free, and a concrete `Store` leaves the registry
untouched. -/
theorem C8_witness :
    ((srv1.OnPeer { addr := "p2", sendOk := true, inbox := [] }).1.peers.map
        Peer.addr).Nodup ∧
    (srv1.Store ivZ "k" [1]).1.peers = srv1.peers :=
  ⟨(C8_registry_invariants srv1 { addr := "p2", sendOk := true, inbox := [] }
      ivZ "k" "p1" [1] 0 none []).2.1 (by decide),
   (C8_registry_invariants srv1 { addr := "p2", sendOk := true, inbox := [] }
      ivZ "k" "p1" [1] 0 none []).2.2.2.2.1⟩

theorem sentTo_bcastEvs (buf : List Nat) (ps : List Peer) (a : String)
    (h1 : (ps.map Peer.addr).count a = 1) :
    sentTo (bcastEvs buf ps) a = IncomingMessage :: buf := by
  have hf : ∀ q : Peer,
      sentTo [Ev.visitPeer q.addr, Ev.send q.addr [IncomingMessage],
        Ev.send q.addr buf] a =
        if q.addr = a then IncomingMessage :: buf else [] := by
    intro q
    rw [sentTo_visit, sentTo_send, sentTo_send]
    by_cases h : q.addr = a <;> simp [h, sentTo_nil]
  have hb := sentTo_blocks (IncomingMessage :: buf)
    (fun q => [Ev.visitPeer q.addr, Ev.send q.addr [IncomingMessage],
      Ev.send q.addr buf]) a hf ps
  rw [bcastEvs, hb, h1]
  simp

theorem sentTo_mwEvs (bs : List Nat) (ps : List Peer) (a : String)
    (h1 : (ps.map Peer.addr).count a = 1) :
    sentTo (mwEvs bs ps) a = bs := by
  have hf : ∀ q : Peer,
      sentTo [Ev.send q.addr bs] a = if q.addr = a then bs else [] := by
    intro q
    rw [sentTo_send]
    by_cases h : q.addr = a <;> simp [h, sentTo_nil]
  have hb := sentTo_blocks bs (fun q => [Ev.send q.addr bs]) a hf ps
  rw [mwEvs, hb, h1]
  simp

/-- C1: `Store(key, r)` writes the content to the local BlobStore
(capturing the plaintext byte count `n = r.length`), broadcasts the
`MessageStoreFile{key, n + 16}` announce to every registered peer, and
only afterwards pushes the stream tag followed by the encrypted content
to all peers — so on the connection of each peer the announce precedes every
content byte, and what crosses the wire after the stream tag is the
ciphertext `copyEncrypt`, not the plaintext. -/
theorem C1_store_announce_before_encrypted_fanout (s : FileServer)
    (iv : List Nat) (key : String) (r : List Nat)
    (hw : s.storeWriteOk = true)
    (hok : ∀ p ∈ s.peers, p.sendOk = true)
    (hnd : (s.peers.map Peer.addr).Nodup) :
    (s.Store iv key r).2.2 = none ∧
    (s.Store iv key r).1.store = storeWrite s.store key r ∧
    (s.Store iv key r).2.1 =
      bcastEvs (encodePayload (.MessageStoreFile key
          ((r.length : Int) + (ENCRYPTION_OVERHEAD : Int)))) s.peers ++
        [Ev.sleep 5] ++ (s.peers.map fun p => Ev.visitPeer p.addr) ++
        mwEvs [IncomingStream] s.peers ++
        mwEvs (copyEncrypt s.encKey iv r) s.peers ∧
    ∀ p ∈ s.peers,
      sentTo (s.Store iv key r).2.1 p.addr =
        (IncomingMessage :: encodePayload (.MessageStoreFile key
            ((r.length : Int) + (ENCRYPTION_OVERHEAD : Int)))) ++
          IncomingStream :: copyEncrypt s.encKey iv r := by
  have hb := broadcastGo_ok (encodePayload (.MessageStoreFile key
    ((r.length : Int) + (ENCRYPTION_OVERHEAD : Int)))) s.peers hok
  have hm1 := multiWrite_ok [IncomingStream] s.peers hok
  have hm2 := multiWrite_ok (copyEncrypt s.encKey iv r) s.peers hok
  have hs : s.Store iv key r =
      ({ s with store := storeWrite s.store key r },
       bcastEvs (encodePayload (.MessageStoreFile key
           ((r.length : Int) + (ENCRYPTION_OVERHEAD : Int)))) s.peers ++
         [Ev.sleep 5] ++ (s.peers.map fun p => Ev.visitPeer p.addr) ++
         mwEvs [IncomingStream] s.peers ++
         mwEvs (copyEncrypt s.encKey iv r) s.peers,
       none) := by
    simp [FileServer.Store, hw, FileServer.broadcast, hb, hm1, hm2]
  refine ⟨by rw [hs], by rw [hs], by rw [hs], ?_⟩
  intro p hp
  have hcount : (s.peers.map Peer.addr).count p.addr = 1 :=
    List.count_eq_one_of_mem hnd (List.mem_map_of_mem _ hp)
  rw [hs]
  show sentTo (_ ++ _ ++ _ ++ _ ++ _) p.addr = _
  rw [sentTo_append, sentTo_append, sentTo_append, sentTo_append,
    sentTo_bcastEvs _ _ _ hcount, sentTo_mwEvs _ _ _ hcount,
    sentTo_mwEvs _ _ _ hcount, sentTo_visits]
  rw [show sentTo [Ev.sleep 5] p.addr = [] from by rw [sentTo_sleep, sentTo_nil]]
  simp

/-- A two-peer server used by the C1 witness. -/
def srv2 : FileServer :=
  { encKey := [7],
    peers := [{ addr := "a", sendOk := true, inbox := [] },
              { addr := "b", sendOk := true, inbox := [] }],
    store := [], storeWriteOk := true }

/-- Witness for C1: on a concrete two-peer server, peer `"a"` receives
the announce envelope and then the tagged ciphertext. -/
theorem C1_witness :
    sentTo ((srv2.Store ivZ "k" [1, 2]).2.1) "a" =
      (IncomingMessage :: encodePayload (.MessageStoreFile "k"
          (((([1, 2] : List Nat).length : Int)) + (ENCRYPTION_OVERHEAD : Int)))) ++
        IncomingStream :: copyEncrypt srv2.encKey ivZ [1, 2] :=
  (C1_store_announce_before_encrypted_fanout srv2 ivZ "k" [1, 2] rfl
      (by decide) (by decide)).2.2.2
    { addr := "a", sendOk := true, inbox := [] } (by decide)

/-- C3: for a key absent from the local store, `Get` broadcasts
`MessageGetFile{key}` to all registered peers, sleeps the fixed
quiescence interval, then for each registered peer reads an 8-byte
little-endian length, reads exactly that many bytes (bounded read) while
write-decrypting them into the store under `key`, signals
stream-consumed, and finally re-reads the now-locally-stored blob and
returns it. -/
theorem C3_get_broadcast_collect_reread (s : FileServer) (key : String)
    (hmiss : storeHas s.store key = false)
    (hw : s.storeWriteOk = true)
    (hok : ∀ p ∈ s.peers, p.sendOk = true)
    (hne : s.peers ≠ []) :
    (s.Get key).2.1 =
      bcastEvs (encodePayload (.MessageGetFile key)) s.peers ++
        [Ev.sleep 500] ++ collectEvs s.peers ∧
    (s.Get key).1.store =
      s.peers.foldl
        (fun acc p => storeWrite acc key (writeDecryptBytes s.encKey (bodyOf p)))
        s.store ∧
    (∀ q, s.peers.getLast? = some q →
      (s.Get key).2.2 = Except.ok (writeDecryptBytes s.encKey (bodyOf q)) ∧
      storeRead (s.Get key).1.store key =
        some (writeDecryptBytes s.encKey (bodyOf q))) ∧
    (∀ p ∈ s.peers, ∀ (m : Nat) (body rest : List Nat),
      m < 2 ^ 63 → body.length = m →
      p.inbox = natToLE8 m ++ (body ++ rest) → bodyOf p = body) := by
  have hb := broadcastGo_ok (encodePayload (.MessageGetFile key)) s.peers hok
  have hc := getCollect_ok s.encKey key s.peers s.store
  have hlast := storeRead_foldl_storeWrite key
    (fun p => writeDecryptBytes s.encKey (bodyOf p)) s.peers s.store hne
  obtain ⟨q, hq⟩ := Option.isSome_iff_exists.mp (List.getLast?_isSome.mpr hne)
  have hreadq : storeRead
      (s.peers.foldl
        (fun acc p => storeWrite acc key (writeDecryptBytes s.encKey (bodyOf p)))
        s.store) key = some (writeDecryptBytes s.encKey (bodyOf q)) := by
    rw [hlast, hq]
    rfl
  have hgs : s.Get key =
      ({ s with store :=
          (s.peers.foldl
            (fun acc p => storeWrite acc key (writeDecryptBytes s.encKey (bodyOf p)))
            s.store) },
       bcastEvs (encodePayload (.MessageGetFile key)) s.peers ++
         [Ev.sleep 500] ++ collectEvs s.peers,
       Except.ok (writeDecryptBytes s.encKey (bodyOf q))) := by
    simp [FileServer.Get, FileServer.broadcast, hmiss, hb, hw, hc, hreadq]
  refine ⟨by rw [hgs], by rw [hgs], ?_, ?_⟩
  · intro q' hq'
    rw [hq] at hq'
    injection hq' with hq''
    subst hq''
    exact ⟨by rw [hgs], by rw [hgs]; exact hreadq⟩
  · intro p _ m body rest hm hbody hin
    exact bodyOf_eq p m body rest hm hbody hin

/-- The responding peer used by the C3 witness: its connection carries an
8-byte length header followed by that many ciphertext bytes. -/
def peer3 : Peer :=
  { addr := "p1", sendOk := true,
    inbox := natToLE8 (copyEncrypt [7] ivZ [9]).length ++ copyEncrypt [7] ivZ [9] }

/-- The requesting server used by the C3 witness. -/
def srv3 : FileServer :=
  { encKey := [7], peers := [peer3], store := [], storeWriteOk := true }

/-- Witness for C3: a concrete remote fetch returns the write-decrypted
body pulled off the connection of the single peer. -/
theorem C3_witness :
    (srv3.Get "k").2.2 = Except.ok (writeDecryptBytes [7] (bodyOf peer3)) :=
  ((C3_get_broadcast_collect_reread srv3 "k" rfl rfl (by decide)
      (by decide)).2.2.1 peer3 rfl).1

/-- C4 counterexample: node B receives `MessageStoreFile{"x", 19}` from
peer A whose stream carries the 19-byte ciphertext of `D = [1, 2, 3]`;
after the handler runs, the store of B under `"x"` holds the raw ciphertext
(19 bytes, IV included), not the decrypted equivalent `D` — the handler
uses the plain `store.Write`, not `WriteDecrypt`. -/
theorem C4_counterexample :
    storeRead
      ((({ encKey := [7],
           peers := [{ addr := "A", sendOk := true,
                       inbox := copyEncrypt [7] ivZ [1, 2, 3] }],
           store := [], storeWriteOk := true } : FileServer).handleMessageStoreFile
          "A" "x" ((19 : Nat) : Int)).1.store) "x" ≠ some [1, 2, 3] := by
  decide

/-- C4 (amended): on `MessageStoreFile{key, size}` the handler reads
exactly `size` bytes from the connection of the announcing peer, writes them
unmodified — still encrypted — into the BlobStore under `key`, and
signals stream-consumed; consequently after a replicated store the
receiving peer holds the encrypted form of the content (16-byte IV plus
ciphertext), which write-decrypts back to the original plaintext. -/
theorem C4_handler_stores_raw_ciphertext (s : FileServer)
    (fromAddr key : String) (size : Int) (p : Peer)
    (hp : findPeer s.peers fromAddr = some p)
    (hw : s.storeWriteOk = true) :
    (s.handleMessageStoreFile fromAddr key size).2.2 = none ∧
    (s.handleMessageStoreFile fromAddr key size).1.store =
      storeWrite s.store key (p.inbox.take size.toNat) ∧
    (s.handleMessageStoreFile fromAddr key size).2.1 =
      [Ev.readPeer fromAddr (p.inbox.take size.toNat).length,
       Ev.closeStream fromAddr] ∧
    (∀ (ckey iv D rest : List Nat), iv.length = 16 →
      p.inbox = copyEncrypt ckey iv D ++ rest →
      size = ((D.length + ENCRYPTION_OVERHEAD : Nat) : Int) →
      storeRead (s.handleMessageStoreFile fromAddr key size).1.store key =
        some (copyEncrypt ckey iv D) ∧
      writeDecryptBytes ckey (copyEncrypt ckey iv D) = D) := by
  have hh : s.handleMessageStoreFile fromAddr key size =
      ({ s with store := storeWrite s.store key (p.inbox.take size.toNat) },
       [Ev.readPeer fromAddr (p.inbox.take size.toNat).length,
        Ev.closeStream fromAddr], none) := by
    simp [FileServer.handleMessageStoreFile, hp, hw]
  refine ⟨by rw [hh], by rw [hh], by rw [hh], ?_⟩
  intro ckey iv D rest hiv hin hsize
  have htake : p.inbox.take size.toNat = copyEncrypt ckey iv D := by
    rw [hin, hsize]
    have hlen : (copyEncrypt ckey iv D).length = D.length + ENCRYPTION_OVERHEAD :=
      length_copyEncrypt ckey iv D hiv
    rw [Int.toNat_ofNat, ← hlen, List.take_left]
  constructor
  · rw [hh]
    simp [htake, storeRead_storeWrite_self]
  · exact writeDecrypt_copyEncrypt ckey iv D hiv

/-- Witness for C4 (amended): a concrete replication delivery stores the
raw ciphertext of `[4, 6]` under `"x"`. -/
theorem C4_witness :
    storeRead
      ((({ encKey := [5],
           peers := [{ addr := "A", sendOk := true,
                       inbox := copyEncrypt [5] ivZ [4, 6] }],
           store := [], storeWriteOk := true } : FileServer).handleMessageStoreFile
          "A" "x" ((([4, 6] : List Nat).length + ENCRYPTION_OVERHEAD : Nat) : Int)).1.store)
      "x" = some (copyEncrypt [5] ivZ [4, 6]) :=
  ((C4_handler_stores_raw_ciphertext
      { encKey := [5],
        peers := [{ addr := "A", sendOk := true,
                    inbox := copyEncrypt [5] ivZ [4, 6] }],
        store := [], storeWriteOk := true }
      "A" "x" ((([4, 6] : List Nat).length + ENCRYPTION_OVERHEAD : Nat) : Int)
      { addr := "A", sendOk := true, inbox := copyEncrypt [5] ivZ [4, 6] }
      (by decide) rfl).2.2.2 [5] ivZ [4, 6] [] (by decide) (by simp) rfl).1

/-- C5 counterexample: on a concrete one-peer server, the bytes `Store`
pushes after the announce envelope are the stream tag followed directly
by the ciphertext — no 8-byte length header on the stream — so the
Store-side content stream is not tag+length+payload framed, while the
claim requires every content stream the node sends to be. -/
theorem C5_counterexample :
    sentTo ((srv1.Store ivZ "k" [1, 2, 3]).2.1) "p1" =
      (IncomingMessage :: encodePayload (.MessageStoreFile "k"
          ((3 : Int) + (ENCRYPTION_OVERHEAD : Int)))) ++
        IncomingStream :: copyEncrypt [7] ivZ [1, 2, 3] ∧
    wellFramedStream (IncomingStream :: copyEncrypt [7] ivZ [1, 2, 3]) = false := by
  decide

/-- C5 (amended): the response to a `GetRequest` is framed on the wire
as the stream tag, an 8-byte little-endian length, and exactly that many
content bytes; the `Store` fan-out push instead sends the tag followed
directly by the ciphertext, whose byte count (plaintext length + 16) is
conveyed by the preceding `MessageStoreFile` announce envelope rather
than by an on-stream length header. -/
theorem C5_framing (s : FileServer) (fromAddr key : String) (data : List Nat)
    (p : Peer) (ckey iv r : List Nat)
    (hdata : storeRead s.store key = some data)
    (hlen : data.length < 2 ^ 63)
    (hp : findPeer s.peers fromAddr = some p)
    (hok : p.sendOk = true)
    (hiv : iv.length = 16) :
    (s.handleMessageGetFile fromAddr key).2.1 =
      [Ev.send fromAddr [IncomingStream], Ev.send fromAddr (natToLE8 data.length),
       Ev.send fromAddr data] ∧
    sentTo (s.handleMessageGetFile fromAddr key).2.1 fromAddr =
      IncomingStream :: (natToLE8 data.length ++ data) ∧
    wellFramedStream (IncomingStream :: (natToLE8 data.length ++ data)) = true ∧
    (copyEncrypt ckey iv r).length = r.length + ENCRYPTION_OVERHEAD := by
  have hhas := storeRead_some_storeHas s.store key data hdata
  have hh : s.handleMessageGetFile fromAddr key =
      (s, [Ev.send fromAddr [IncomingStream],
           Ev.send fromAddr (natToLE8 data.length), Ev.send fromAddr data],
       none) := by
    simp [FileServer.handleMessageGetFile, hhas, hdata, hp, hok]
  have hfrom : fromLE8 (natToLE8 data.length) = data.length := by
    rw [fromLE8_natToLE8]
    exact Nat.mod_eq_of_lt (lt_trans hlen (by norm_num))
  refine ⟨by rw [hh], ?_, ?_, length_copyEncrypt ckey iv r hiv⟩
  · rw [hh, sentTo_send, sentTo_send, sentTo_send, sentTo_nil]
    simp
  · have h8 : (natToLE8 data.length ++ data).take 8 = natToLE8 data.length := by
      rw [← length_natToLE8 data.length, List.take_left]
    simp [wellFramedStream, h8, hfrom, length_natToLE8, IncomingStream]

/-- Witness for C5 (amended): a concrete `GetRequest` response for the
one-byte blob `[4]` is well framed. -/
theorem C5_witness :
    wellFramedStream (IncomingStream :: (natToLE8 ([4] : List Nat).length ++ [4])) = true :=
  (C5_framing
      { encKey := [7], peers := [{ addr := "A", sendOk := true, inbox := [] }],
        store := [("k", [4])], storeWriteOk := true }
      "A" "k" [4] { addr := "A", sendOk := true, inbox := [] } [7] ivZ [1]
      (by decide) (by norm_num) (by decide) rfl (by decide)).2.2.1

end CAS
